import Mathlib

/-!
Verification of the grbl-streamer flow-control engine
(`src/grbl_streamer.cpp`, `main`, lines 230-317, and `readSerialLine`,
lines 46-83).

The streaming loop is embedded shallowly:

* the G-code file is a `GFile` (its characters plus the current read
  position; `std::getline` and the relative `seekg` become `getlineF` and
  `seekBack`);
* the serial device's incoming bytes are a list of single-byte read
  results (`ReadRes`): a byte, a zero-length read (EOF / connection
  closed, `read` returning 0) or a negative-length read (`read`
  returning -1).  An exhausted list models a device that never sends
  anything further, on which `readSerialLine`'s `select` would block
  forever;
* the outcomes of the `write` calls for the command lines are a list of
  `Bool`s (head = next write; an exhausted list means writes succeed),
  so short/failed writes are inputs of the model;
* `std::cout` output that is guarded by the `verbose` flag is recorded
  as a list of `OutEvent`s, `std::cerr` output as `ErrEvent`s;
* ghost fields (`writes`, `reads`, `credits`, `sentLens`, `states`,
  `events`) record the observable history: bytes written, raw responses
  read, lengths credited back in order, wire lengths in send order, the
  `(available, pending_lengths)` pair after every mutation and at start,
  and the interleaving of writes/failed writes/reads.

The loop itself is fuel-indexed (`loopRun`); the fill phase
(`while (available > 0 && std::getline(...))`, lines 237-270) is
`fillPhase`, with internally supplied fuel that is proved sufficient.
-/

set_option maxRecDepth 8000

namespace GrblStreamer

/-- GRBL RX buffer size; `const int RX_BUFFER_SIZE = 127` (line 16). -/
def RX_BUFFER_SIZE : Int := 127

/-- The whitespace set `" \t\r\n"` used by the trims (lines 246, 287-294). -/
def isWS (c : Char) : Bool := c = ' ' || c = '\t' || c = '\r' || c = '\n'

/-- The C `std::tolower` on an ASCII byte (line 298-299). -/
def toLowerC (c : Char) : Char :=
  if 'A' ≤ c && c ≤ 'Z' then Char.ofNat (c.toNat + 32) else c

/-- Line 301, `lower_response.find("ok") != std::string::npos`:
substring search for `"ok"`. -/
def containsOk : List Char → Bool
  | [] => false
  | c :: rest =>
    (c = 'o' && (match rest with | k :: _ => k = 'k' | [] => false))
      || containsOk rest

/-- Lines 242-245: `line.find(';')`, and on a hit `line.substr(0, comment_pos)`. -/
def stripComment (l : List Char) : List Char :=
  match l.findIdx? (fun c => c = ';') with
  | some i => l.take i
  | none => l

/-- Line 246: `line.erase(line.find_last_not_of(" \t\r\n") + 1)` — trim
trailing whitespace; when the whole string is whitespace, `npos + 1 = 0`
erases everything. -/
def trimTrailing (l : List Char) : List Char :=
  (l.reverse.dropWhile isWS).reverse

/-- The per-line filtering inlined at lines 239-247: skip the raw line if
empty, strip the comment, trim trailing whitespace, skip if the rest is
empty. -/
def processLine (raw : List Char) : Option (List Char) :=
  if raw = [] then none
  else
    let line := trimTrailing (stripComment raw)
    if line = [] then none else some line

/-- Lines 286-294: leading trim via `find_first_not_of` + `substr(start)`,
then trailing trim via `find_last_not_of` + `substr(0, end+1)`.  When the
string has no non-whitespace character both finds return `npos` and the
string is left unchanged. -/
def respTrim (r : List Char) : List Char :=
  let r1 := if r.any (fun c => !(isWS c)) then r.dropWhile isWS else r
  let r2 := if r1.any (fun c => !(isWS c)) then (r1.reverse.dropWhile isWS).reverse else r1
  r2

/-- The classification actually applied to a raw response (lines 286-301):
trim, lowercase, search for `"ok"`. -/
def okResp (r : List Char) : Bool :=
  containsOk ((respTrim r).map toLowerC)

/-- The `std::ifstream` over the G-code file: its characters and the get
position.  `eofbit`/`failbit` need no separate field: `getlineF` fails
exactly when the position is at the end, and the program only calls
`seekg` right after a successful `getline` (line 253), where C++11
`seekg` clears `eofbit`. -/
structure GFile where
  content : List Char
  pos : Nat
  deriving DecidableEq

/-- Line 237, `std::getline(gcode_file, line)`: fails at end of input;
otherwise reads up to and consuming the next `'\n'`, or up to the end of
input when no `'\n'` remains. -/
def getlineF (f : GFile) : Option (List Char × GFile) :=
  if f.content.length ≤ f.pos then none
  else
    match (f.content.drop f.pos).findIdx? (fun c => c = '\n') with
    | some i => some ((f.content.drop f.pos).take i, ⟨f.content, f.pos + i + 1⟩)
    | none => some (f.content.drop f.pos, ⟨f.content, f.content.length⟩)

/-- Line 253, `gcode_file.seekg(-(line.length() + 1), std::ios::cur)`.
Natural subtraction: the target can be negative only for a first-ever raw
line that fills the whole file without a terminating newline, in which
case nothing has been sent, the fill phase exits, and the loop ends the
same way under C++ semantics (`seekg` failing and sticking `failbit`) and
under clamping to 0. -/
def seekBack (f : GFile) (k : Nat) : GFile :=
  ⟨f.content, f.pos - k⟩

/-- One outcome of the single-byte `read(fd, &buf, 1)` inside
`readSerialLine` (line 66): a byte (`n > 0`), a zero-length read (`n == 0`,
EOF) or a negative-length read (`n < 0`, transport error). -/
inductive ReadRes
  | byte (c : Char)
  | eofR
  | errR
  deriving DecidableEq

/-- Lines 48-83, `readSerialLine`: accumulate single-byte reads until a
`'\n'` byte (kept in the result), a zero-length read, or a negative-length
read; the last two just `break`, returning the partial line.  `none`
models the `select` blocking forever because no further read result ever
arrives. -/
def readSerialLine : List ReadRes → List Char → Option (List Char × List ReadRes)
  | [], _ => none
  | ReadRes.byte c :: rest, acc =>
    if c = '\n' then some (acc ++ ['\n'], rest) else readSerialLine rest (acc ++ [c])
  | ReadRes.eofR :: rest, acc => some (acc, rest)
  | ReadRes.errR :: rest, acc => some (acc, rest)

/-- Ghost record of the device-facing history: a successful write of a
command's bytes, a short/failed write, a response line read. -/
inductive Ev
  | evWrite (bs : List Char)
  | evWriteFail
  | evRead (resp : List Char)
  deriving DecidableEq

/-- The `std::cout` lines guarded by `verbose`: lines 259-261, 278-280,
282-284, 306-308, with their printed data. -/
inductive OutEvent
  | sendingE (line : List Char) (len : Nat) (avail : Int)
  | waitingE (npending : Nat) (avail : Int)
  | respE (r : List Char)
  | freedE (len : Nat) (avail : Int)
  deriving DecidableEq

/-- The `std::cerr` lines (263, 311), printed regardless of `verbose`. -/
inductive ErrEvent
  | writeErrE
  | grblErrE (resp : List Char)
  deriving DecidableEq

/-- The verbose-independent part of the loop state: the file stream, the
flow-control counters of lines 230-233 (`return_code`, `available`,
`pending_lengths`), the environment (`dev`, `wr`), and the ghost
histories. -/
structure Core where
  file : GFile
  avail : Int
  pending : List Nat
  dev : List ReadRes
  wr : List Bool
  retcode : Nat
  writes : List (List Char)
  reads : List (List Char)
  credits : List Nat
  sentLens : List Nat
  states : List (Int × List Nat)
  errs : List ErrEvent
  events : List Ev
  deriving DecidableEq

/-- Full loop state: core plus the `verbose` flag and the `std::cout`
transcript. -/
structure St where
  core : Core
  verbose : Bool
  out : List OutEvent
  deriving DecidableEq

/-- The verbose-guarded `std::cout` emission pattern of the source. -/
def emit (st : St) (e : OutEvent) : St :=
  if st.verbose then { st with out := st.out ++ [e] } else st

/-- The result of the next `write` call, consumed from the environment
list; an exhausted list means the write succeeds. -/
def popWr : List Bool → Bool × List Bool
  | [] => (true, [])
  | b :: rest => (b, rest)

/-- State update of a successful send (lines 262, 268-269): record the
written bytes, `available -= len`, `pending_lengths.push(len)`; ghost
fields record the wire length and the new `(available, pending)` pair. -/
def sendRec (c : Core) (line : List Char) : Core :=
  let len := line.length + 1
  let c2 := { c with
    wr := (popWr c.wr).2,
    writes := c.writes ++ [line ++ ['\n']],
    events := c.events ++ [Ev.evWrite (line ++ ['\n'])],
    avail := c.avail - (len : Int),
    pending := c.pending ++ [len],
    sentLens := c.sentLens ++ [len] }
  { c2 with states := c2.states ++ [(c2.avail, c2.pending)] }

/-- State update of a short/failed write (lines 262-266): `return_code = 1`
and the fill loop breaks; no counter is touched. -/
def failRec (c : Core) : Core :=
  { c with
    wr := (popWr c.wr).2,
    retcode := 1,
    errs := c.errs ++ [ErrEvent.writeErrE],
    events := c.events ++ [Ev.evWriteFail] }

/-- State update of a consumed positive acknowledgment (lines 302-305):
pop the queue head, `available += len`; ghost fields record the credit and
the new `(available, pending)` pair. -/
def creditRec (c : Core) (len : Nat) (restP : List Nat) : Core :=
  let c2 := { c with
    pending := restP,
    avail := c.avail + (len : Int),
    credits := c.credits ++ [len] }
  { c2 with states := c2.states ++ [(c2.avail, c2.pending)] }

/-- State update of a completed response read (line 281). -/
def readRec (c : Core) (resp : List Char) (dev' : List ReadRes) : Core :=
  { c with
    dev := dev',
    reads := c.reads ++ [resp],
    events := c.events ++ [Ev.evRead resp] }

/-- The fill phase, `while (available > 0 && std::getline(gcode_file, line))`
(lines 237-270).  `none` = fuel exhausted (proved unreachable for fuel
≥ file length + 1).  The hold-back branch (lines 251-254) seeks the file
back by the *processed* line's length + 1 and breaks; the comparison
`len > available` is between a `size_t` and an `int`, which for the
(invariantly) non-negative `available` and real string lengths is the
integer comparison used here. -/
def fillPhase : Nat → St → Option St
  | 0, _ => none
  | fuel + 1, st =>
    if 0 < st.core.avail then
      match getlineF st.core.file with
      | none => some st
      | some (raw, f1) =>
        let st1 : St := { st with core := { st.core with file := f1 } }
        match processLine raw with
        | none => fillPhase fuel st1
        | some line =>
          let len := line.length + 1
          if (len : Int) > st1.core.avail then
            some { st1 with core := { st1.core with file := seekBack st1.core.file (line.length + 1) } }
          else
            let st2 := emit st1 (OutEvent.sendingE line len st1.core.avail)
            if (popWr st2.core.wr).1 then
              fillPhase fuel { st2 with core := sendRec st2.core line }
            else
              some { st2 with core := failRec st2.core }
    else some st

/-- How an execution of the outer `while (true)` loop ends: `doneE` is a
`break` out of the loop (the program then returns `return_code`),
`blockedE` is `readSerialLine` blocking forever on a silent device,
`fuelOutE` is exhausted fuel. -/
inductive EndKind
  | doneE
  | blockedE
  | fuelOutE
  deriving DecidableEq

/-- The outer streaming loop, `while (true)` (lines 235-317): fill phase;
`break` when `pending_lengths` is empty (line 273); otherwise read one
response (line 281), trim, lowercase and search for `"ok"` (lines 286-301);
on a hit pop the head length back into `available` (lines 302-309), on a
miss print the error and `break` with `return_code` untouched (lines
310-314, where `return_code = 1` is commented out in the source); finally
`if (return_code != 0) break` (line 316). -/
def loopRun : Nat → St → St × EndKind
  | 0, st => (st, EndKind.fuelOutE)
  | fuel + 1, st =>
    match fillPhase (st.core.file.content.length + 1) st with
    | none => (st, EndKind.fuelOutE)
    | some st1 =>
      if st1.core.pending = [] then (st1, EndKind.doneE)
      else
        let st2 := emit st1 (OutEvent.waitingE st1.core.pending.length st1.core.avail)
        match readSerialLine st2.core.dev [] with
        | none => (st2, EndKind.blockedE)
        | some (resp, dev') =>
          let st3 : St := { st2 with core := readRec st2.core resp dev' }
          let st4 := emit st3 (OutEvent.respE resp)
          let r := respTrim resp
          if containsOk (r.map toLowerC) then
            match st4.core.pending with
            | [] =>
              if st4.core.retcode ≠ 0 then (st4, EndKind.doneE) else loopRun fuel st4
            | len :: restP =>
              let st5 : St := { st4 with core := creditRec st4.core len restP }
              let st6 := emit st5 (OutEvent.freedE len st5.core.avail)
              if st6.core.retcode ≠ 0 then (st6, EndKind.doneE) else loopRun fuel st6
          else
            ({ st4 with core := { st4.core with errs := st4.core.errs ++ [ErrEvent.grblErrE r] } },
             EndKind.doneE)

/-- Initial state (lines 230-233): `return_code = 0`,
`available = RX_BUFFER_SIZE`, empty queue, file at position 0. -/
def initSt (content : List Char) (dev : List ReadRes) (wr : List Bool) (verbose : Bool) : St :=
  { core := { file := ⟨content, 0⟩, avail := RX_BUFFER_SIZE, pending := [],
              dev := dev, wr := wr, retcode := 0, writes := [], reads := [],
              credits := [], sentLens := [], states := [(RX_BUFFER_SIZE, [])],
              errs := [], events := [] },
    verbose := verbose, out := [] }

/-- The streaming loop run from the initial state; the program's exit
status for the streaming part is `(run ...).1.core.retcode`. -/
def run (content : List Char) (dev : List ReadRes) (wr : List Bool)
    (verbose : Bool) (fuel : Nat) : St × EndKind :=
  loopRun fuel (initSt content dev wr verbose)

/-- Byte list of a response/command string. -/
def devOf (s : String) : List ReadRes :=
  s.toList.map ReadRes.byte

/-- Sum of the pending wire lengths, as an integer. -/
def sumP (l : List Nat) : Int :=
  ((l.sum : Nat) : Int)

/-- The conservation/no-overflow property of one recorded
`(available, pending)` pair. -/
def stateOk (s : Int × List Nat) : Prop :=
  s.1 + sumP s.2 = RX_BUFFER_SIZE ∧ 0 ≤ s.1

/-- Holds (`true`) when no failed write has been recorded. -/
def noFail (l : List Ev) : Bool :=
  l.all (fun e => match e with | Ev.evWriteFail => false | _ => true)

/-- After the first failed write, at most one further event may occur and
it must be a response read (the single response the loop still consumes
at line 281 when the backlog is non-empty). -/
def postFailOk : List Ev → Bool
  | [] => true
  | [Ev.evRead _] => true
  | _ => false

/-- Scan to the first failed write, then require `postFailOk` of the rest. -/
def eventsOk : List Ev → Bool
  | [] => true
  | Ev.evWriteFail :: rest => postFailOk rest
  | Ev.evWrite _ :: rest => eventsOk rest
  | Ev.evRead _ :: rest => eventsOk rest

/-- Invariant holding whenever the outer loop is at its head: the
conservation equation, non-negative budget, every recorded state
satisfying the conservation equation, all written records within the
buffer size, sent lengths = credited lengths ++ pending lengths, the file
position in range, `return_code` still zero and no failed write in the
history. -/
def PreInv (c : Core) : Prop :=
  0 ≤ c.avail ∧
  c.avail + sumP c.pending = RX_BUFFER_SIZE ∧
  (∀ s ∈ c.states, stateOk s) ∧
  (∀ w ∈ c.writes, w.length ≤ 127) ∧
  c.sentLens = c.credits ++ c.pending ∧
  c.file.pos ≤ c.file.content.length ∧
  c.retcode = 0 ∧
  noFail c.events = true

/-- C2 scenario: five commands; the first two fill most of the buffer and
the third cannot fit until well after the second acknowledgment. -/
def c2file : List Char :=
  List.replicate 60 'A' ++ '\n' :: (List.replicate 60 'B' ++ '\n' ::
    (List.replicate 70 'C' ++ ('\n' :: "G1 X4\nG1 X5\n".toList)))

/-- C2 scenario: first acknowledgment positive, second is `error:9`. -/
def c2dev : List ReadRes := devOf "ok\nerror:9\n"

/-- C3 scenario: a 130-character command (wire length 131 > 127) followed
by an ordinary command. -/
def c3file : List Char := List.replicate 130 'G' ++ '\n' :: "G1 X1\n".toList

/-- C4 scenario: a 122-character command fills the buffer down to 4 bytes,
so the next line is held back; that line carries a comment. -/
def c4file : List Char :=
  List.replicate 122 'G' ++ '\n' :: "G1 X1 ; comment\n".toList

/-- C4 scenario, comment-free variant of the held-back line. -/
def c4fileClean : List Char :=
  List.replicate 122 'G' ++ '\n' :: "G1 X1\n".toList

/-- Two positive acknowledgments. -/
def okok : List ReadRes := devOf "ok\nok\n"

/-! ### Basic lemmas about the embedded operations -/

theorem emit_core (st : St) (e : OutEvent) : (emit st e).core = st.core := by
  unfold emit; split <;> rfl

theorem emit_verbose (st : St) (e : OutEvent) : (emit st e).verbose = st.verbose := by
  unfold emit; split <;> rfl

theorem getlineF_content {f f1 : GFile} {raw : List Char}
    (h : getlineF f = some (raw, f1)) : f1.content = f.content := by
  unfold getlineF at h
  split at h
  · exact absurd h (by simp)
  · split at h <;> (injection h with h; injection h with h1 h2; rw [← h2])

theorem getlineF_pos_lt {f f1 : GFile} {raw : List Char}
    (h : getlineF f = some (raw, f1)) : f.pos < f1.pos := by
  unfold getlineF at h
  split at h
  · exact absurd h (by simp)
  · rename_i hlt
    split at h <;>
      (injection h with h; injection h with h1 h2; rw [← h2]; simp; omega)

theorem getlineF_pos_le {f f1 : GFile} {raw : List Char}
    (h : getlineF f = some (raw, f1)) : f1.pos ≤ f1.content.length := by
  unfold getlineF at h
  split at h
  · exact absurd h (by simp)
  · rename_i hlt
    split at h
    · rename_i i hi
      have hb := (List.findIdx?_eq_some_iff_findIdx_eq.mp hi).1
      injection h with h; injection h with h1 h2
      rw [← h2]; simp only []
      simp only [List.length_drop] at hb
      omega
    · injection h with h; injection h with h1 h2
      rw [← h2]

theorem readSerialLine_dev_lt :
    ∀ (dev : List ReadRes) (acc resp : List Char) (dev' : List ReadRes),
      readSerialLine dev acc = some (resp, dev') → dev'.length < dev.length := by
  intro dev
  induction dev with
  | nil => intro acc resp dev' h; simp [readSerialLine] at h
  | cons x rest ih =>
    intro acc resp dev' h
    cases x with
    | byte c =>
      rw [readSerialLine] at h
      by_cases hc : c = '\n'
      · rw [if_pos hc] at h
        injection h with h; injection h with h1 h2
        rw [← h2]; simp
      · rw [if_neg hc] at h
        have := ih _ _ _ h
        simp; omega
    | eofR =>
      rw [readSerialLine] at h
      injection h with h; injection h with h1 h2
      rw [← h2]; simp
    | errR =>
      rw [readSerialLine] at h
      injection h with h; injection h with h1 h2
      rw [← h2]; simp

theorem readSerialLine_eof (rest : List ReadRes) (acc : List Char) :
    readSerialLine (ReadRes.eofR :: rest) acc = some (acc, rest) := rfl

theorem readSerialLine_err (rest : List ReadRes) (acc : List Char) :
    readSerialLine (ReadRes.errR :: rest) acc = some (acc, rest) := rfl

theorem sumP_nil : sumP [] = 0 := rfl

theorem sumP_cons (n : Nat) (l : List Nat) : sumP (n :: l) = (n : Int) + sumP l := by
  unfold sumP; push_cast [List.sum_cons]; ring

theorem sumP_append_single (l : List Nat) (n : Nat) : sumP (l ++ [n]) = sumP l + (n : Int) := by
  unfold sumP; push_cast [List.sum_append]; simp

theorem sumP_nonneg (l : List Nat) : 0 ≤ sumP l := by
  unfold sumP; positivity

theorem noFail_append (l1 l2 : List Ev) :
    noFail (l1 ++ l2) = (noFail l1 && noFail l2) := by
  unfold noFail; exact List.all_append

theorem noFail_single_write (bs : List Char) : noFail [Ev.evWrite bs] = true := rfl

theorem noFail_single_read (r : List Char) : noFail [Ev.evRead r] = true := rfl

theorem noFail_eventsOk : ∀ l : List Ev, noFail l = true → eventsOk l = true := by
  intro l
  induction l with
  | nil => intro _; rfl
  | cons e rest ih =>
    intro h
    rw [noFail] at h
    simp only [List.all_cons, Bool.and_eq_true] at h
    cases e with
    | evWrite bs => rw [eventsOk]; exact ih h.2
    | evWriteFail => exact absurd h.1 (by simp)
    | evRead r => rw [eventsOk]; exact ih h.2

theorem eventsOk_concat : ∀ (pre post : List Ev), noFail pre = true →
    postFailOk post = true → eventsOk (pre ++ Ev.evWriteFail :: post) = true := by
  intro pre
  induction pre with
  | nil => intro post _ hp; simpa [eventsOk] using hp
  | cons e rest ih =>
    intro post hn hp
    rw [noFail] at hn
    simp only [List.all_cons, Bool.and_eq_true] at hn
    cases e with
    | evWrite bs => rw [List.cons_append, eventsOk]; exact ih post hn.2 hp
    | evWriteFail => exact absurd hn.1 (by simp)
    | evRead r => rw [List.cons_append, eventsOk]; exact ih post hn.2 hp

/-! ### Frame and fuel lemmas for the fill phase -/

theorem fillPhase_frame : ∀ (fuel : Nat) (st st' : St),
    fillPhase fuel st = some st' →
    st'.core.dev = st.core.dev ∧
    st'.core.reads = st.core.reads ∧
    st'.core.credits = st.core.credits ∧
    st'.core.file.content = st.core.file.content ∧
    st'.verbose = st.verbose ∧
    (st.core.file.pos ≤ st.core.file.content.length →
      st'.core.file.pos ≤ st'.core.file.content.length) ∧
    (st.core.wr = [] →
      st'.core.wr = [] ∧ st'.core.retcode = st.core.retcode ∧
      noFail st'.core.events = noFail st.core.events) := by
  intro fuel
  induction fuel with
  | zero => intro st st' h; simp [fillPhase] at h
  | succ n ih =>
    intro st st' h
    rw [fillPhase] at h
    by_cases ha : 0 < st.core.avail
    · rw [if_pos ha] at h
      cases hg : getlineF st.core.file with
      | none =>
        rw [hg] at h
        injection h with h; subst h
        exact ⟨rfl, rfl, rfl, rfl, rfl, fun hpos => hpos, fun hw => ⟨hw, rfl, rfl⟩⟩
      | some pr =>
        obtain ⟨raw, f1⟩ := pr
        rw [hg] at h
        have hcont := getlineF_content hg
        have hposle := getlineF_pos_le hg
        cases hp : processLine raw with
        | none =>
          simp only [hp] at h
          obtain ⟨h1, h2, h3, h4, h5, h6, h7⟩ := ih _ _ h
          exact ⟨h1, h2, h3, h4.trans hcont, h5, fun _ => h6 hposle, h7⟩
        | some line =>
          simp only [hp] at h
          split at h
          · -- hold-back: seek backwards, exit fill
            injection h with h; subst h
            refine ⟨rfl, rfl, rfl, hcont, rfl, ?_, fun hw => ⟨hw, rfl, rfl⟩⟩
            intro _
            exact le_trans (Nat.sub_le _ _) (hcont ▸ hposle)
          · split at h
            · -- successful write, recurse
              obtain ⟨h1, h2, h3, h4, h5, h6, h7⟩ := ih _ _ h
              simp only [sendRec, emit_core, emit_verbose] at h1 h2 h3 h4 h5 h6 h7
              refine ⟨h1, h2, h3, h4.trans hcont, h5, fun _ => h6 hposle, ?_⟩
              intro hw
              obtain ⟨w1, w2, w3⟩ := h7 (by simp [hw, popWr, emit_core])
              refine ⟨w1, w2, ?_⟩
              rw [w3, noFail_append, noFail_single_write, Bool.and_true]
            · -- failed write, exit fill
              rename_i hwrF
              injection h with h; subst h
              refine ⟨by simp [failRec, emit_core], by simp [failRec, emit_core],
                      by simp [failRec, emit_core], by simp [failRec, emit_core, hcont],
                      by simp [emit_verbose], ?_, ?_⟩
              · intro _
                simp only [failRec, emit_core]
                exact hcont ▸ hposle
              · intro hw
                exact absurd (by simp [hw, popWr, emit_core]) hwrF
    · rw [if_neg ha] at h
      injection h with h; subst h
      exact ⟨rfl, rfl, rfl, rfl, rfl, fun hpos => hpos, fun hw => ⟨hw, rfl, rfl⟩⟩

theorem fillPhase_ne_none : ∀ (fuel : Nat) (st : St),
    st.core.file.pos ≤ st.core.file.content.length →
    st.core.file.content.length + 1 ≤ fuel + st.core.file.pos →
    fillPhase fuel st ≠ none := by
  intro fuel
  induction fuel with
  | zero => intro st hpos hfuel; omega
  | succ n ih =>
    intro st hpos hfuel h
    rw [fillPhase] at h
    by_cases ha : 0 < st.core.avail
    · rw [if_pos ha] at h
      cases hg : getlineF st.core.file with
      | none => rw [hg] at h; exact absurd h (by simp)
      | some pr =>
        obtain ⟨raw, f1⟩ := pr
        rw [hg] at h
        have hcont := getlineF_content hg
        have hlt := getlineF_pos_lt hg
        have hple := getlineF_pos_le hg
        cases hp : processLine raw with
        | none =>
          simp only [hp] at h
          refine ih _ ?_ ?_ h
          · simpa [hcont] using hple
          · simp only [hcont]; omega
        | some line =>
          simp only [hp] at h
          split at h
          · exact absurd h (by simp)
          · split at h
            · refine ih _ ?_ ?_ h
              · simp only [emit_core, sendRec]
                simpa [hcont] using hple
              · simp only [emit_core, sendRec, hcont]; omega
            · exact absurd h (by simp)
    · rw [if_neg ha] at h
      exact absurd h (by simp)

/-! ### The flow-control invariant -/

theorem fillPhase_spec : ∀ (fuel : Nat) (st st' : St),
    fillPhase fuel st = some st' → PreInv st.core →
    (0 ≤ st'.core.avail ∧
     st'.core.avail + sumP st'.core.pending = RX_BUFFER_SIZE ∧
     (∀ s ∈ st'.core.states, stateOk s) ∧
     (∀ w ∈ st'.core.writes, w.length ≤ 127) ∧
     st'.core.sentLens = st'.core.credits ++ st'.core.pending ∧
     st'.core.file.pos ≤ st'.core.file.content.length) ∧
    ((st'.core.retcode = 0 ∧ noFail st'.core.events = true) ∨
     (st'.core.retcode = 1 ∧
      ∃ pre, st'.core.events = pre ++ [Ev.evWriteFail] ∧ noFail pre = true)) := by
  intro fuel
  induction fuel with
  | zero => intro st st' h; simp [fillPhase] at h
  | succ n ih =>
    intro st st' h hpre
    obtain ⟨hav, hcons, hstates, hwrites, hsplit, hpos, hret, hnf⟩ := hpre
    rw [fillPhase] at h
    by_cases ha : 0 < st.core.avail
    · rw [if_pos ha] at h
      cases hg : getlineF st.core.file with
      | none =>
        rw [hg] at h
        injection h with h; subst h
        exact ⟨⟨hav, hcons, hstates, hwrites, hsplit, hpos⟩, Or.inl ⟨hret, hnf⟩⟩
      | some pr =>
        obtain ⟨raw, f1⟩ := pr
        rw [hg] at h
        have hcont := getlineF_content hg
        have hposle := getlineF_pos_le hg
        cases hp : processLine raw with
        | none =>
          simp only [hp] at h
          exact ih _ _ h ⟨hav, hcons, hstates, hwrites, hsplit, hposle, hret, hnf⟩
        | some line =>
          simp only [hp] at h
          split at h
          · -- hold-back
            injection h with h; subst h
            refine ⟨⟨hav, hcons, hstates, hwrites, hsplit, ?_⟩, Or.inl ⟨hret, hnf⟩⟩
            exact le_trans (Nat.sub_le _ _) hposle
          · -- fits
            rename_i hfit
            split at h
            · -- successful write, recurse
              refine ih _ _ h ?_
              have hlen : ((line.length + 1 : Nat) : Int) ≤ st.core.avail := by
                exact le_of_not_lt hfit
              refine ⟨?_, ?_, ?_, ?_, ?_, ?_, ?_, ?_⟩ <;>
                simp only [sendRec, emit_core]
              · -- 0 ≤ avail - len
                push_cast at hlen ⊢
                omega
              · -- conservation
                rw [sumP_append_single]
                push_cast at hcons ⊢
                omega
              · -- states
                intro s hs
                simp only [List.mem_append, List.mem_singleton] at hs
                rcases hs with hs | hs
                · exact hstates s hs
                · subst hs
                  constructor
                  · rw [sumP_append_single]
                    push_cast at hcons ⊢
                    omega
                  · push_cast at hlen ⊢
                    omega
              · -- writes bounded
                intro w hw
                simp only [List.mem_append, List.mem_singleton] at hw
                rcases hw with hw | hw
                · exact hwrites w hw
                · subst hw
                  have h127 : st.core.avail ≤ 127 := by
                    have := sumP_nonneg st.core.pending
                    have : st.core.avail + sumP st.core.pending = 127 := hcons
                    omega
                  simp only [List.length_append, List.length_cons, List.length_nil]
                  push_cast at hlen
                  omega
              · -- sent = credits ++ pending
                rw [hsplit, List.append_assoc]
              · -- file position
                exact hposle
              · -- retcode preserved
                exact hret
              · -- noFail preserved
                rw [noFail_append, hnf, noFail_single_write]
                rfl
            · -- failed write
              injection h with h; subst h
              simp only [failRec, emit_core]
              exact ⟨⟨hav, hcons, hstates, hwrites, hsplit, hposle⟩,
                     Or.inr ⟨trivial, st.core.events, rfl, hnf⟩⟩
    · rw [if_neg ha] at h
      injection h with h; subst h
      exact ⟨⟨hav, hcons, hstates, hwrites, hsplit, hpos⟩, Or.inl ⟨hret, hnf⟩⟩

/-! ### Outer-loop lemmas -/

theorem loopRun_ne_fuelOut : ∀ (fuel : Nat) (st : St),
    st.core.file.pos ≤ st.core.file.content.length →
    st.core.dev.length + 1 ≤ fuel →
    (loopRun fuel st).2 ≠ EndKind.fuelOutE := by
  intro fuel
  induction fuel with
  | zero => intro st _ hfuel; omega
  | succ n ih =>
    intro st hpos hfuel
    rw [loopRun]
    cases hfill : fillPhase (st.core.file.content.length + 1) st with
    | none =>
      exact absurd hfill (fillPhase_ne_none _ _ hpos (by omega))
    | some st1 =>
      obtain ⟨hdev, _, _, hcont, _, hposI, _⟩ := fillPhase_frame _ _ _ hfill
      by_cases hp : st1.core.pending = []
      · simp [hp]
      · simp only [if_neg hp, emit_core]
        cases hread : readSerialLine st1.core.dev [] with
        | none => simp [hread]
        | some pr =>
          obtain ⟨resp, dev'⟩ := pr
          simp only [hread]
          have hdlt : dev'.length < st1.core.dev.length :=
            readSerialLine_dev_lt _ _ _ _ hread
          by_cases hok : containsOk ((respTrim resp).map toLowerC) = true
          · simp only [hok, if_true]
            cases hpend : st1.core.pending with
            | nil => exact absurd hpend hp
            | cons len restP =>
              simp only [emit_core, readRec, hpend]
              by_cases hrc : st1.core.retcode = 0
              · simp only [emit_core, creditRec, hrc]
                simp only [ne_eq, not_true_eq_false, if_false, ite_false]
                refine ih _ ?_ ?_
                · simpa [emit_core, creditRec, readRec, hcont] using hposI hpos
                · simp only [emit_core, creditRec, readRec]
                  rw [hdev] at hdlt
                  omega
              · simp [emit_core, creditRec, hrc]
          · simp [hok]

/-- Everything the loop guarantees about its final state, starting from a
state satisfying `PreInv`. -/
theorem loopRun_spec : ∀ (fuel : Nat) (st : St), PreInv st.core →
    (∀ s ∈ (loopRun fuel st).1.core.states, stateOk s) ∧
    (∀ w ∈ (loopRun fuel st).1.core.writes, w.length ≤ 127) ∧
    (loopRun fuel st).1.core.sentLens =
      (loopRun fuel st).1.core.credits ++ (loopRun fuel st).1.core.pending ∧
    eventsOk (loopRun fuel st).1.core.events = true ∧
    (noFail (loopRun fuel st).1.core.events = false →
      (loopRun fuel st).1.core.retcode = 1) ∧
    0 ≤ (loopRun fuel st).1.core.avail ∧
    (loopRun fuel st).1.core.avail + sumP (loopRun fuel st).1.core.pending =
      RX_BUFFER_SIZE := by
  intro fuel
  induction fuel with
  | zero =>
    intro st hpre
    obtain ⟨hav, hcons, hstates, hwrites, hsplit, hpos, hret, hnf⟩ := hpre
    rw [loopRun]
    exact ⟨hstates, hwrites, hsplit, noFail_eventsOk _ hnf,
           fun hf => absurd hnf (by rw [hf]; simp), hav, hcons⟩
  | succ n ih =>
    intro st hpre
    rw [loopRun]
    cases hfill : fillPhase (st.core.file.content.length + 1) st with
    | none =>
      obtain ⟨hav, hcons, hstates, hwrites, hsplit, hpos, hret, hnf⟩ := hpre
      exact ⟨hstates, hwrites, hsplit, noFail_eventsOk _ hnf,
             fun hf => absurd hnf (by rw [hf]; simp), hav, hcons⟩
    | some st1 =>
      obtain ⟨⟨hav1, hcons1, hstates1, hwrites1, hsplit1, hpos1⟩, hdis⟩ :=
        fillPhase_spec _ _ _ hfill hpre
      by_cases hp : st1.core.pending = []
      · -- backlog empty: break out of the loop
        simp only [if_pos hp]
        rcases hdis with ⟨hrc, hnf1⟩ | ⟨hrc, pre, hev, hnfpre⟩
        · exact ⟨hstates1, hwrites1, hsplit1, noFail_eventsOk _ hnf1,
                 fun hf => absurd hnf1 (by rw [hf]; simp), hav1, hcons1⟩
        · refine ⟨hstates1, hwrites1, hsplit1, ?_, fun _ => hrc, hav1, hcons1⟩
          rw [hev]
          exact eventsOk_concat pre [] hnfpre rfl
      · simp only [if_neg hp, emit_core]
        cases hread : readSerialLine st1.core.dev [] with
        | none =>
          -- device silent forever: blocked
          simp only [hread, emit_core]
          rcases hdis with ⟨hrc, hnf1⟩ | ⟨hrc, pre, hev, hnfpre⟩
          · exact ⟨hstates1, hwrites1, hsplit1, noFail_eventsOk _ hnf1,
                   fun hf => absurd hnf1 (by rw [hf]; simp), hav1, hcons1⟩
          · refine ⟨hstates1, hwrites1, hsplit1, ?_, fun _ => hrc, hav1, hcons1⟩
            rw [hev]
            exact eventsOk_concat pre [] hnfpre rfl
        | some pr =>
          obtain ⟨resp, dev'⟩ := pr
          simp only [hread]
          by_cases hok : containsOk ((respTrim resp).map toLowerC) = true
          · simp only [hok, if_true]
            cases hpend : st1.core.pending with
            | nil => exact absurd hpend hp
            | cons len restP =>
              simp only [emit_core, readRec, hpend]
              by_cases hrc : st1.core.retcode = 0
              · -- acknowledged, credit the head length, loop
                simp only [emit_core, creditRec, hrc]
                simp only [ne_eq, not_true_eq_false, if_false, ite_false]
                refine ih _ ?_
                rcases hdis with ⟨_, hnf1⟩ | ⟨hrc1, _, _, _⟩
                · refine ⟨?_, ?_, ?_, ?_, ?_, ?_, ?_, ?_⟩ <;>
                    simp only [emit_core, creditRec, readRec]
                  · -- 0 ≤ avail + len
                    have := sumP_nonneg restP
                    have hc := hcons1
                    rw [hpend, sumP_cons] at hc
                    omega
                  · -- conservation after credit
                    have hc := hcons1
                    rw [hpend, sumP_cons] at hc
                    omega
                  · -- recorded states
                    intro s hs
                    simp only [List.mem_append, List.mem_singleton] at hs
                    rcases hs with hs | hs
                    · exact hstates1 s hs
                    · subst hs
                      have := sumP_nonneg restP
                      have hc := hcons1
                      rw [hpend, sumP_cons] at hc
                      constructor
                      · push_cast at hc ⊢; omega
                      · omega
                  · exact hwrites1
                  · -- sent = credits ++ pending
                    rw [hsplit1, hpend, List.append_assoc]
                    simp
                  · exact hpos1
                  · -- no failed write yet
                    rw [noFail_append, hnf1, noFail_single_read]
                    rfl
                · exact absurd (hrc1 ▸ hrc) one_ne_zero
              · -- retcode already 1 (failed write): process this ack, then break
                simp only [emit_core, creditRec, readRec, ne_eq]
                rw [if_pos hrc]
                rcases hdis with ⟨hrc0, _⟩ | ⟨hrc1, pre, hev, hnfpre⟩
                · exact absurd hrc0 hrc
                · refine ⟨?_, ?_, ?_, ?_, ?_, ?_, ?_⟩ <;>
                    simp only [emit_core, creditRec, readRec]
                  · intro s hs
                    simp only [List.mem_append, List.mem_singleton] at hs
                    rcases hs with hs | hs
                    · exact hstates1 s hs
                    · subst hs
                      have := sumP_nonneg restP
                      have hc := hcons1
                      rw [hpend, sumP_cons] at hc
                      constructor
                      · push_cast at hc ⊢; omega
                      · omega
                  · exact hwrites1
                  · rw [hsplit1, hpend, List.append_assoc]
                    simp
                  · rw [hev, List.append_assoc]
                    exact eventsOk_concat pre _ hnfpre rfl
                  · intro _; exact hrc1
                  · have := sumP_nonneg restP
                    have hc := hcons1
                    rw [hpend, sumP_cons] at hc
                    omega
                  · have hc := hcons1
                    rw [hpend, sumP_cons] at hc
                    omega
          · -- device error: halt
            simp only [hok, Bool.false_eq_true, if_false, ite_false]
            simp only [emit_core, readRec]
            rcases hdis with ⟨hrc0, hnf1⟩ | ⟨hrc1, pre, hev, hnfpre⟩
            · refine ⟨hstates1, hwrites1, hsplit1, ?_, ?_, hav1, hcons1⟩
              · apply noFail_eventsOk
                rw [noFail_append, hnf1, noFail_single_read]
                rfl
              · intro hf
                rw [noFail_append, hnf1, noFail_single_read] at hf
                simp at hf
            · refine ⟨hstates1, hwrites1, hsplit1, ?_, fun _ => hrc1, hav1, hcons1⟩
              rw [hev, List.append_assoc]
              exact eventsOk_concat pre _ hnfpre rfl

/-- When writes always succeed and every response actually read contains
the acknowledgment token, the loop can only end by draining: it breaks
out at the `pending_lengths.empty()` check with `return_code` still 0. -/
theorem loopRun_okDrain : ∀ (fuel : Nat) (st : St),
    st.core.wr = [] → st.core.retcode = 0 →
    (loopRun fuel st).2 ≠ EndKind.fuelOutE →
    (loopRun fuel st).2 ≠ EndKind.blockedE →
    (∀ r ∈ (loopRun fuel st).1.core.reads, okResp r = true) →
    (loopRun fuel st).2 = EndKind.doneE ∧
    (loopRun fuel st).1.core.retcode = 0 ∧
    (loopRun fuel st).1.core.pending = [] := by
  intro fuel
  induction fuel with
  | zero =>
    intro st _ _ hf _ _
    rw [loopRun] at hf
    simp at hf
  | succ n ih =>
    intro st hwr hrc hf hb hr
    rw [loopRun] at hf hb hr ⊢
    cases hfill : fillPhase (st.core.file.content.length + 1) st with
    | none => rw [hfill] at hf; simp at hf
    | some st1 =>
      rw [hfill] at hf hb hr
      obtain ⟨hdev, hreads, _, hcont, _, hposI, hwrI⟩ := fillPhase_frame _ _ _ hfill
      obtain ⟨hwr1, hrc1, hnfeq⟩ := hwrI hwr
      rw [hrc] at hrc1
      by_cases hp : st1.core.pending = []
      · simp only [if_pos hp] at hf hb hr ⊢
        exact ⟨trivial, hrc1, hp⟩
      · simp only [if_neg hp, emit_core] at hf hb hr ⊢
        cases hread : readSerialLine st1.core.dev [] with
        | none =>
          simp only [hread] at hb
          exact absurd rfl hb
        | some pr =>
          obtain ⟨resp, dev'⟩ := pr
          simp only [hread] at hf hb hr ⊢
          by_cases hok : containsOk ((respTrim resp).map toLowerC) = true
          · simp only [if_pos hok] at hf hb hr ⊢
            cases hpend : st1.core.pending with
            | nil => exact absurd hpend hp
            | cons len restP =>
              simp only [emit_core, readRec, hpend] at hf hb hr ⊢
              simp only [emit_core, creditRec, hrc1] at hf hb hr ⊢
              simp only [ne_eq, not_true_eq_false, if_false, ite_false] at hf hb hr ⊢
              refine ih _ ?_ ?_ hf hb hr
              · simp [emit_core, hwr1]
              · simp [emit_core, hrc1]
          · simp only [if_neg hok] at hr
            exfalso
            have hresp := hr resp (by simp [emit_core, readRec])
            rw [okResp] at hresp
            exact hok hresp

/-! ### The verbose flag does not influence the core state -/

theorem fillPhase_coreEq : ∀ (fuel : Nat) (st1 st2 : St), st1.core = st2.core →
    (fillPhase fuel st1).map St.core = (fillPhase fuel st2).map St.core := by
  intro fuel
  induction fuel with
  | zero => intro st1 st2 _; rfl
  | succ n ih =>
    intro st1 st2 h
    rw [fillPhase, fillPhase, h]
    by_cases ha : 0 < st2.core.avail
    · rw [if_pos ha, if_pos ha]
      cases hg : getlineF st2.core.file with
      | none => simp [h]
      | some pr =>
        obtain ⟨raw, f1⟩ := pr
        cases hp : processLine raw with
        | none =>
          simp only [hp]
          exact ih _ _ rfl
        | some line =>
          simp only [hp, emit_core]
          split
          · rfl
          · split
            · exact ih _ _ (by simp [emit_core, sendRec])
            · simp [emit_core, failRec]
    · rw [if_neg ha, if_neg ha]
      simp [h]

theorem loopRun_coreEq : ∀ (fuel : Nat) (st1 st2 : St), st1.core = st2.core →
    (loopRun fuel st1).1.core = (loopRun fuel st2).1.core ∧
    (loopRun fuel st1).2 = (loopRun fuel st2).2 := by
  intro fuel
  induction fuel with
  | zero => intro st1 st2 h; rw [loopRun, loopRun]; exact ⟨h, rfl⟩
  | succ n ih =>
    intro st1 st2 h
    rw [loopRun, loopRun]
    have hmap := fillPhase_coreEq (st1.core.file.content.length + 1) st1 st2 h
    rw [h] at hmap
    cases hf1 : fillPhase (st1.core.file.content.length + 1) st1 with
    | none =>
      rw [h] at hf1
      rw [hf1] at hmap
      cases hf2 : fillPhase (st2.core.file.content.length + 1) st2 with
      | none => simp only [h, hf1, hf2]; exact ⟨trivial, trivial⟩
      | some s2 => rw [hf2] at hmap; simp at hmap
    | some s1 =>
      rw [h] at hf1
      rw [hf1] at hmap
      cases hf2 : fillPhase (st2.core.file.content.length + 1) st2 with
      | none => rw [hf2] at hmap; simp at hmap
      | some s2 =>
        rw [hf2] at hmap
        simp only [Option.map_some'] at hmap
        injection hmap with hc
        simp only [h, hf1, hf2]
        by_cases hp : s2.core.pending = []
        · simp only [if_pos (show s1.core.pending = [] by rw [hc]; exact hp), if_pos hp]
          exact ⟨hc, trivial⟩
        · simp only [if_neg (show ¬s1.core.pending = [] by rw [hc]; exact hp), if_neg hp]
          simp only [emit_core, hc]
          cases hread : readSerialLine s2.core.dev [] with
          | none => simp [hread, emit_core, hc]
          | some pr =>
            obtain ⟨resp, dev'⟩ := pr
            simp only [hread]
            by_cases hok : containsOk ((respTrim resp).map toLowerC) = true
            · simp only [if_pos hok]
              cases hpend : s2.core.pending with
              | nil => exact absurd hpend hp
              | cons len restP =>
                simp only [emit_core, readRec, creditRec, hc, hpend]
                by_cases hrc : s2.core.retcode = 0
                · simp only [hrc]
                  simp only [ne_eq, not_true_eq_false, if_false, ite_false]
                  exact ih _ _ (by simp [emit_core, readRec, creditRec, hc])
                · simp only [ne_eq, if_neg (show ¬¬s2.core.retcode = 0 → False from fun hh => hh hrc)]
                  simp [emit_core, readRec, creditRec, hc, hrc]
            · simp only [if_neg hok]
              simp [emit_core, readRec, hc]

/-! ### The invariants, stated of `run` -/

theorem initSt_preInv (content : List Char) (dev : List ReadRes)
    (wr : List Bool) (verbose : Bool) : PreInv (initSt content dev wr verbose).core := by
  refine ⟨by norm_num [initSt, RX_BUFFER_SIZE], ?_, ?_, ?_, ?_, ?_, rfl, rfl⟩
  · simp [initSt, sumP, RX_BUFFER_SIZE]
  · intro s hs
    simp only [initSt, List.mem_singleton] at hs
    subst hs
    exact ⟨by simp [sumP], by norm_num [RX_BUFFER_SIZE]⟩
  · intro w hw; simp [initSt] at hw
  · simp [initSt]
  · simp [initSt]

theorem run_spec (content : List Char) (dev : List ReadRes) (wr : List Bool)
    (verbose : Bool) (fuel : Nat) :
    (∀ s ∈ (run content dev wr verbose fuel).1.core.states, stateOk s) ∧
    (∀ w ∈ (run content dev wr verbose fuel).1.core.writes, w.length ≤ 127) ∧
    (run content dev wr verbose fuel).1.core.sentLens =
      (run content dev wr verbose fuel).1.core.credits ++
        (run content dev wr verbose fuel).1.core.pending ∧
    eventsOk (run content dev wr verbose fuel).1.core.events = true ∧
    (noFail (run content dev wr verbose fuel).1.core.events = false →
      (run content dev wr verbose fuel).1.core.retcode = 1) ∧
    0 ≤ (run content dev wr verbose fuel).1.core.avail ∧
    (run content dev wr verbose fuel).1.core.avail +
      sumP (run content dev wr verbose fuel).1.core.pending = RX_BUFFER_SIZE :=
  loopRun_spec fuel (initSt content dev wr verbose)
    (initSt_preInv content dev wr verbose)

/-! ### The claims -/

/-- C1: conservation invariant of the streaming loop.  Every
`(available, pending_lengths)` state the loop ever reaches (recorded in
the ghost `states` trace: the initial state and the state after every
send and every credited acknowledgment) satisfies
`available + sum(pending) = CAPACITY = 127`, `available` is never
negative, and consequently the backlog sum never exceeds `CAPACITY` — so
no write is ever issued that would push the backlog sum past the buffer
size, `available` being decremented exactly by the wire length pushed at
a send and incremented exactly by the head length popped at an
acknowledgment (`sendRec` / `creditRec`). -/
theorem c1_conservation_invariant (content : List Char) (dev : List ReadRes)
    (wr : List Bool) (verbose : Bool) (fuel : Nat) :
    ∀ s ∈ (run content dev wr verbose fuel).1.core.states,
      s.1 + sumP s.2 = RX_BUFFER_SIZE ∧ 0 ≤ s.1 ∧ sumP s.2 ≤ RX_BUFFER_SIZE := by
  intro s hs
  obtain ⟨hstates, _⟩ := run_spec content dev wr verbose fuel
  obtain ⟨h1, h2⟩ := hstates s hs
  refine ⟨h1, h2, ?_⟩
  omega

/-- Witness for C1 at a concrete run: after sending `"A\n"` (wire length
2) the recorded state is `(125, [2])` and satisfies the invariant. -/
theorem c1_conservation_invariant_witness :
    ((125 : Int), ([2] : List Nat)).1 + sumP ((125 : Int), ([2] : List Nat)).2
        = RX_BUFFER_SIZE ∧
    0 ≤ ((125 : Int), ([2] : List Nat)).1 ∧
    sumP ((125 : Int), ([2] : List Nat)).2 ≤ RX_BUFFER_SIZE :=
  c1_conservation_invariant "A\n".toList [] [] false 1
    ((125 : Int), ([2] : List Nat)) (by decide)

/-- C2: evaluation of the code at the claimed failing input.  With five
commands (wire lengths 61, 61, 71, 6, 6) and acknowledgments
`"ok"`, `"error:9"`, the loop sends exactly commands 1 and 2, frees
exactly one command's space (61 bytes), halts at the `error:9` response
(recorded on stderr) — but `return_code` stays 0, because line 312
(`return_code = 1`) is commented out, so the program exits with status 0
(Success) instead of reporting a failure. -/
theorem c2_device_error_exits_zero :
    (run c2file c2dev [] false 10).1.core.retcode = 0 ∧
    (run c2file c2dev [] false 10).1.core.writes =
      [List.replicate 60 'A' ++ ['\n'], List.replicate 60 'B' ++ ['\n']] ∧
    (run c2file c2dev [] false 10).1.core.credits = [61] ∧
    (run c2file c2dev [] false 10).1.core.errs =
      [ErrEvent.grblErrE "error:9".toList] ∧
    (run c2file c2dev [] false 10).2 = EndKind.doneE := by
  decide

/-- C3 counterexample: a file whose first command has wire length
131 > 127, followed by an ordinary command.  The loop never reports any
error (`errs = []`), writes nothing, and terminates with exit status 0 —
there is no `CommandTooLarge` failure, and the run ends in Success while
silently dropping the oversize command and everything after it. -/
theorem c3_counterexample :
    (run c3file [] [] false 5).2 = EndKind.doneE ∧
    (run c3file [] [] false 5).1.core.retcode = 0 ∧
    (run c3file [] [] false 5).1.core.writes = [] ∧
    (run c3file [] [] false 5).1.core.errs = [] := by
  decide

/-- C3 amended: an oversize command is indeed never written — every
record actually written to the device has wire length at most
`CAPACITY = 127` — but instead of an up-front `CommandTooLarge` error the
loop holds the oversize line back via the seek mechanism and, once the
backlog is empty, exits with status 0, silently dropping it (see
`c3_counterexample`). -/
theorem c3_amended_no_oversize_write (content : List Char) (dev : List ReadRes)
    (wr : List Bool) (verbose : Bool) (fuel : Nat) :
    ∀ w ∈ (run content dev wr verbose fuel).1.core.writes, w.length ≤ 127 :=
  (run_spec content dev wr verbose fuel).2.1

/-- Witness for C3's amended statement at a concrete run. -/
theorem c3_amended_no_oversize_write_witness :
    ("G1 X1\n".toList).length ≤ 127 :=
  c3_amended_no_oversize_write "G1 X1\n".toList [ReadRes.eofR] [] false 2
    "G1 X1\n".toList (by decide)

/-- C4 counterexample: the hold-back is a file-position rewind, not a
lookahead buffer, and it is wrong for lines with comments.  A
122-character command leaves 4 free bytes, so the line
`"G1 X1 ; comment"` (processed record `"G1 X1"`, wire length 6 > 4) is
held back by seeking backwards by 6 over a raw line that consumed 16
bytes; after the acknowledgment the stream re-reads from the middle of
the raw line and sends `"mment\n"` — not the held-back record
`"G1 X1"`. -/
theorem c4_counterexample :
    (run c4file okok [] false 10).1.core.writes =
      [List.replicate 122 'G' ++ ['\n'], "mment\n".toList] ∧
    (run c4file okok [] false 10).2 = EndKind.doneE := by
  decide

/-- C4 amended: the hold-back is realized by seeking the file position
backwards by (processed line length + 1); when the held-back raw line was
clean — no comment, no trailing whitespace, `'\n'`-terminated, so that
the processed record's length + 1 equals the bytes `getline` consumed —
the seek lands exactly at the start of the raw line and the re-read
yields the identical record; on the concrete clean variant of the C4
scenario the retried write is the identical `"G1 X1\n"`. -/
theorem c4_amended_rewind_exact_for_clean_lines (f f1 : GFile) (raw : List Char)
    (h : getlineF f = some (raw, f1)) (hnl : f1.pos = f.pos + raw.length + 1) :
    seekBack f1 (raw.length + 1) = f ∧
    getlineF (seekBack f1 (raw.length + 1)) = some (raw, f1) ∧
    (run c4fileClean okok [] false 10).1.core.writes =
      [List.replicate 122 'G' ++ ['\n'], "G1 X1\n".toList] := by
  have hc := getlineF_content h
  obtain ⟨cf, pf⟩ := f
  have hp2 : f1.pos - (raw.length + 1) = pf := by
    have hx : f1.pos = pf + raw.length + 1 := hnl
    omega
  have h1 : seekBack f1 (raw.length + 1) = (⟨cf, pf⟩ : GFile) := by
    simp [seekBack, GFile.mk.injEq, hc, hp2]
  refine ⟨h1, ?_, by decide⟩
  rw [h1]
  exact h

/-- Witness for C4's amended statement: re-reading after the rewind of a
clean line reproduces the same record (`"A"` from the file `"A\n"`). -/
theorem c4_amended_rewind_exact_for_clean_lines_witness :
    seekBack ⟨"A\n".toList, 2⟩ (['A'].length + 1) = ⟨"A\n".toList, 0⟩ ∧
    getlineF (seekBack ⟨"A\n".toList, 2⟩ (['A'].length + 1)) =
      some (['A'], ⟨"A\n".toList, 2⟩) ∧
    (run c4fileClean okok [] false 10).1.core.writes =
      [List.replicate 122 'G' ++ ['\n'], "G1 X1\n".toList] :=
  c4_amended_rewind_exact_for_clean_lines ⟨"A\n".toList, 0⟩ ⟨"A\n".toList, 2⟩
    ['A'] (by decide) (by decide)

/-- C5 counterexample: a connection closed while awaiting the
acknowledgment (a zero-length read).  `readSerialLine` returns the empty
partial line, the loop classifies it through the same not-`"ok"` branch
as a device-reported error (stderr shows `grblErrE ""`), and the program
exits with status 0 — Success — with the command still pending; there is
no distinct ConnectionClosed/ReadFailure outcome and no Failure
propagation. -/
theorem c5_counterexample :
    (run "G1 X1\n".toList [ReadRes.eofR] [] false 5).1.core.retcode = 0 ∧
    (run "G1 X1\n".toList [ReadRes.eofR] [] false 5).2 = EndKind.doneE ∧
    (run "G1 X1\n".toList [ReadRes.eofR] [] false 5).1.core.pending = [6] ∧
    (run "G1 X1\n".toList [ReadRes.eofR] [] false 5).1.core.errs =
      [ErrEvent.grblErrE []] := by
  decide

/-- C5 amended: a zero-length read (EOF) or negative-length read (error)
merely terminates `readSerialLine`, which returns the bytes accumulated
so far; the streaming loop then treats that partial line like any other
response, and since it lacks the token it halts through the device-error
branch with exit status 0 (shown for a transport read error on the
concrete input). -/
theorem c5_amended_transport_folded_into_device_error (rest : List ReadRes)
    (acc : List Char) :
    readSerialLine (ReadRes.eofR :: rest) acc = some (acc, rest) ∧
    readSerialLine (ReadRes.errR :: rest) acc = some (acc, rest) ∧
    (run "G1 X1\n".toList [ReadRes.errR] [] false 5).1.core.retcode = 0 ∧
    (run "G1 X1\n".toList [ReadRes.errR] [] false 5).1.core.errs =
      [ErrEvent.grblErrE []] ∧
    (run "G1 X1\n".toList [ReadRes.errR] [] false 5).2 = EndKind.doneE :=
  ⟨rfl, rfl, by decide, by decide, by decide⟩

/-- C6: FIFO acknowledgment.  In any run whose sent wire lengths are
`[L1, L2, L3]` and in which three positive acknowledgments were credited,
the credited lengths are exactly `L1, L2, L3` in that order — the
credited list is always a prefix of the sent list
(`sentLens = credits ++ pending`), independent of the acknowledgment
text. -/
theorem c6_fifo_credit_order (content : List Char) (dev : List ReadRes)
    (wr : List Bool) (verbose : Bool) (fuel : Nat) (L1 L2 L3 : Nat)
    (hsent : (run content dev wr verbose fuel).1.core.sentLens = [L1, L2, L3])
    (hcred : (run content dev wr verbose fuel).1.core.credits.length = 3) :
    (run content dev wr verbose fuel).1.core.credits = [L1, L2, L3] := by
  have hsplit := (run_spec content dev wr verbose fuel).2.2.1
  rw [hsent] at hsplit
  have hlen := congrArg List.length hsplit
  simp only [List.length_append, List.length_cons, List.length_nil, hcred] at hlen
  have hpz : (run content dev wr verbose fuel).1.core.pending = [] := by
    have : (run content dev wr verbose fuel).1.core.pending.length = 0 := by omega
    exact List.eq_nil_of_length_eq_zero this
  rw [hpz, List.append_nil] at hsplit
  exact hsplit.symm

/-- Witness for C6: three commands of wire lengths 2, 3, 4 and three
positive acknowledgments credit back exactly `[2, 3, 4]`. -/
theorem c6_fifo_credit_order_witness :
    (run "A\nBB\nCCC\n".toList (devOf "ok\nok\nok\n") [] false 10).1.core.credits
      = [2, 3, 4] :=
  c6_fifo_credit_order "A\nBB\nCCC\n".toList (devOf "ok\nok\nok\n") [] false 10
    2 3 4 (by decide) (by decide)

/-- C7: termination and success on an all-positive acknowledgment stream.
For every file content and device byte stream, with a reliable transport
(all writes succeed, `wr = []`), fuel `dev.length + 1` always suffices
(the run cannot end in `fuelOutE`); if moreover the device never leaves
the engine blocked forever (the spec's "endless supply") and every
response actually read contains the token, the loop terminates through
the `pending_lengths.empty()` break — `doneE` with `return_code = 0`
(Success) and an empty Pending Backlog. -/
theorem c7_termination_success (content : List Char) (dev : List ReadRes)
    (verbose : Bool)
    (hnb : (run content dev [] verbose (dev.length + 1)).2 ≠ EndKind.blockedE)
    (hok : ∀ r ∈ (run content dev [] verbose (dev.length + 1)).1.core.reads,
      okResp r = true) :
    (run content dev [] verbose (dev.length + 1)).2 = EndKind.doneE ∧
    (run content dev [] verbose (dev.length + 1)).1.core.retcode = 0 ∧
    (run content dev [] verbose (dev.length + 1)).1.core.pending = [] := by
  refine loopRun_okDrain (dev.length + 1) (initSt content dev [] verbose)
    rfl rfl ?_ hnb hok
  exact loopRun_ne_fuelOut (dev.length + 1) (initSt content dev [] verbose)
    (Nat.zero_le _) (le_refl _)

/-- Witness for C7 at a concrete run: one command, one `"ok"`. -/
theorem c7_termination_success_witness :
    (run "G1 X1\n".toList (devOf "ok\n") [] false
        ((devOf "ok\n").length + 1)).2 = EndKind.doneE ∧
    (run "G1 X1\n".toList (devOf "ok\n") [] false
        ((devOf "ok\n").length + 1)).1.core.retcode = 0 ∧
    (run "G1 X1\n".toList (devOf "ok\n") [] false
        ((devOf "ok\n").length + 1)).1.core.pending = [] :=
  c7_termination_success "G1 X1\n".toList (devOf "ok\n") false
    (by decide) (by decide)

/-- C8 counterexample: a failed write with a non-empty backlog.  The
first command is sent, the second write fails (`return_code = 1`), and
the loop then still reads and processes one more response (`"ok\n"`,
which credits the first command) before breaking — so "no further
responses are consumed" is false; the run does end with the Failure exit
status 1 and without further writes. -/
theorem c8_counterexample :
    (run "G1 X1\nG1 X2\n".toList (devOf "ok\n") [true, false] false 5).1.core.retcode
        = 1 ∧
    (run "G1 X1\nG1 X2\n".toList (devOf "ok\n") [true, false] false 5).1.core.reads
        = ["ok\n".toList] ∧
    (run "G1 X1\nG1 X2\n".toList (devOf "ok\n") [true, false] false 5).1.core.writes
        = ["G1 X1\n".toList] ∧
    (run "G1 X1\nG1 X2\n".toList (devOf "ok\n") [true, false] false 5).2
        = EndKind.doneE := by
  decide

/-- C8 amended: after the first failed write the engine never writes
again (no retry, no further command) and consumes at most one further
response — the single read the loop still performs when the backlog is
non-empty — before halting (`eventsOk`); and whenever a failed write
occurred, `run` ends with the Failure exit status 1. -/
theorem c8_amended_write_error_halt (content : List Char) (dev : List ReadRes)
    (wr : List Bool) (verbose : Bool) (fuel : Nat) :
    eventsOk (run content dev wr verbose fuel).1.core.events = true ∧
    (noFail (run content dev wr verbose fuel).1.core.events = false →
      (run content dev wr verbose fuel).1.core.retcode = 1) := by
  have h := run_spec content dev wr verbose fuel
  exact ⟨h.2.2.2.1, h.2.2.2.2.1⟩

/-- Witness for C8's amended statement at the concrete failing-write run. -/
theorem c8_amended_write_error_halt_witness :
    eventsOk (run "G1 X1\nG1 X2\n".toList (devOf "ok\n") [true, false] false
        5).1.core.events = true ∧
    (run "G1 X1\nG1 X2\n".toList (devOf "ok\n") [true, false] false
        5).1.core.retcode = 1 :=
  ⟨(c8_amended_write_error_halt "G1 X1\nG1 X2\n".toList (devOf "ok\n")
      [true, false] false 5).1,
   (c8_amended_write_error_halt "G1 X1\nG1 X2\n".toList (devOf "ok\n")
      [true, false] false 5).2 (by decide)⟩

/-- C9: line filtering.  For every raw line the supplier logic yields the
comment-stripped, right-trimmed text, and yields nothing exactly when
that remainder is empty; in particular `"G1 X1 ; comment"` yields the
record `"G1 X1"`, while the empty line, a comment-only line, an
all-whitespace line and a bare CR yield no record. -/
theorem c9_line_filtering :
    (∀ raw : List Char, processLine raw =
      if trimTrailing (stripComment raw) = [] then none
      else some (trimTrailing (stripComment raw))) ∧
    processLine "G1 X1 ; comment".toList = some "G1 X1".toList ∧
    processLine [] = none ∧
    processLine "; comment only".toList = none ∧
    processLine "   ".toList = none ∧
    processLine ['\r'] = none := by
  refine ⟨?_, by decide, by decide, by decide, by decide, by decide⟩
  intro raw
  by_cases h : raw = []
  · subst h; decide
  · simp only [processLine, if_neg h]

/-- C10: verbose noninterference.  For every file, device stream, write
behavior and fuel, the runs with `verbose = true` and `verbose = false`
have identical cores — the same bytes written, the same responses
consumed, the same evolution of `available`/`pending_lengths` (the
recorded `states`), the same stderr and the same `return_code` — and end
the same way; `verbose` only changes the `std::cout` transcript. -/
theorem c10_verbose_noninterference (content : List Char) (dev : List ReadRes)
    (wr : List Bool) (fuel : Nat) :
    (run content dev wr true fuel).1.core = (run content dev wr false fuel).1.core ∧
    (run content dev wr true fuel).2 = (run content dev wr false fuel).2 :=
  loopRun_coreEq fuel (initSt content dev wr true) (initSt content dev wr false) rfl

end GrblStreamer
